import Mathlib

/-!
Verification of the core of `pyramid_torque_engine` (orm.py, subscribe.py)
against its natural-language specification.

Python unicode strings are embedded as `List Char` (`PyStr`); JSON values as
an inductive `Value`; the database tables touched by the ORM mixin as explicit
lists of rows with an id/assoc-id/clock allocator threaded through a `Db`
state.  Fallible Python operations (e.g. a `ValueError` from tuple unpacking)
return `Option`.
-/

namespace TorqueEngine

/-- A Python unicode string, embedded as its list of characters. -/
abbrev PyStr := List Char

/-- Helper to write `PyStr` literals. -/
def pystr (s : String) : PyStr := s.data

/-- Python's `value.split(sep)` for a one-character separator: split on every
occurrence of `sep`.  `''.split(sep) = ['']`, and a string with no separator
yields the singleton list holding the whole string. -/
def pySplit (sep : Char) : PyStr → List PyStr
  | [] => [[]]
  | c :: rest =>
    if c = sep then [] :: pySplit sep rest
    else
      match pySplit sep rest with
      | [] => [[c]]
      | g :: gs => (c :: g) :: gs

theorem pySplit_ne_nil (sep : Char) (s : PyStr) : pySplit sep s ≠ [] := by
  induction s with
  | nil => simp [pySplit]
  | cons c rest ih =>
    simp only [pySplit]
    split
    · simp
    · split
      · simp
      · simp

/-- On a string free of the separator, Python's split returns the whole
string as a singleton. -/
theorem pySplit_of_not_mem (sep : Char) (s : PyStr) (h : sep ∉ s) :
    pySplit sep s = [s] := by
  induction s with
  | nil => rfl
  | cons c rest ih =>
    simp only [List.mem_cons, not_or] at h
    simp only [pySplit]
    rw [if_neg (fun hc => h.1 hc.symm), ih h.2]

/-- Splitting `t ++ ':' ++ a` where neither token holds the separator gives
exactly the two tokens. -/
theorem pySplit_append (sep : Char) (t a : PyStr) (ht : sep ∉ t) (ha : sep ∉ a) :
    pySplit sep (t ++ sep :: a) = [t, a] := by
  induction t with
  | nil =>
    simp [pySplit, pySplit_of_not_mem sep a ha]
  | cons c rest ih =>
    simp only [List.mem_cons, not_or] at ht
    simp only [List.cons_append, pySplit]
    rw [if_neg (fun hc => ht.1 hc.symm)]
    rw [List.append_eq, ih ht.2]

/-- Python's `value.split(sep)[0]`: the prefix of the string before the first
occurrence of the separator (the whole string when the separator is absent). -/
theorem pySplit_head (sep : Char) (s : PyStr) :
    (pySplit sep s).headD [] = s.takeWhile (fun c => ¬ c = sep) := by
  induction s with
  | nil => rfl
  | cons c rest ih =>
    simp only [pySplit, List.takeWhile]
    by_cases hc : c = sep
    · simp [hc]
    · rw [if_neg hc]
      have hne := pySplit_ne_nil sep rest
      cases hsp : pySplit sep rest with
      | nil => exact absurd hsp hne
      | cons g gs =>
        simp only [List.headD]
        rw [hsp] at ih
        simp only [List.headD] at ih
        simp [hc, ih]

/-! ## Event ledger (`ActivityEvent` in orm.py)

An activity event row: `target`/`action` string columns plus an id.  The JSON
`data` payload and relations not needed by the claims about `type_` and event
resolution are omitted from the row; `event_id` foreign keys below resolve
against a table of these rows. -/

structure ActivityEvent where
  id : Nat
  target : PyStr
  action : PyStr
deriving DecidableEq, Repr

/-- The `type_` hybrid-property getter:
`u'{0}:{1}'.format(self.target, self.action)`. -/
def ActivityEvent.type_get (e : ActivityEvent) : PyStr :=
  e.target ++ ':' :: e.action

/-- The `type_` setter's parse step:
`self.target, self.action = value.split(u':')`.
Python unpacks the split result into exactly two names, raising `ValueError`
(here `none`) unless the split produced exactly two parts, i.e. unless the
value holds exactly one colon. -/
def typeSetParse (value : PyStr) : Option (PyStr × PyStr) :=
  match pySplit ':' value with
  | [t, a] => some (t, a)
  | _ => none

/-- The `type_` setter applied to an event row: overwrite both tokens on
success, `none` models the `ValueError` escaping the setter. -/
def ActivityEvent.type_set (e : ActivityEvent) (value : PyStr) : Option ActivityEvent :=
  (typeSetParse value).map (fun p => { e with target := p.1, action := p.2 })

/-! ## Status ledger rows (`WorkStatus` in orm.py) -/

/-- A `work_statuses` table row: status `value` string, FK to the causing
`ActivityEvent` (`event_id`, nullable) and to a `WorkStatusAssociation`
(`association_id`, nullable).  `created` is the row timestamp from the base
model; `id` the primary key. -/
structure WorkStatusRow where
  id : Nat
  created : Nat
  value : PyStr
  event_id : Option Nat
  association_id : Option Nat
deriving DecidableEq, Repr

/-! ## JSON values and requests (subscribe.py's view of a request) -/

/-- A JSON value as decoded from a request body. -/
inductive Value where
  | null
  | boolean (b : Bool)
  | num (n : Int)
  | str (s : PyStr)
  | arr (elems : List Value)
  | obj (fields : List (PyStr × Value))

/-- Python's `dict.get(key, None)` on a decoded JSON object. -/
def jsonGet (json : List (PyStr × Value)) (key : PyStr) : Option Value :=
  (json.find? (fun kv => kv.1 = key)).map (fun kv => kv.2)

/-- The route-resolved context object, as `GetActivityEvent` sees it: it may
expose a `work_status` attribute (the parent's current-status property). -/
structure Context where
  work_status : Option WorkStatusRow

/-- An inbound request: decoded JSON body plus route-resolved context
(`request.context` is `None` when traversal found nothing). -/
structure Request where
  json : List (PyStr × Value)
  context : Option Context

/-- `int(x)` on an optional JSON value: `none` models the `TypeError` or
`ValueError` that `int` raises on `None`, non-numeric strings, and
containers. -/
def digitsToNat (ds : PyStr) : Option Nat :=
  if ds = [] then none
  else if ds.all (fun c => c.isDigit) then
    some (ds.foldl (fun acc c => acc * 10 + (c.toNat - '0'.toNat)) 0)
  else none

/-- Python `int(s)` on a unicode string: optional surrounding spaces, an
optional sign, then decimal digits; anything else raises `ValueError`
(`none`). -/
def pyStrToInt (s : PyStr) : Option Int :=
  let t := ((s.dropWhile (fun c => c = ' ')).reverse.dropWhile (fun c => c = ' ')).reverse
  match t with
  | '-' :: ds => (digitsToNat ds).map (fun n => -(n : Int))
  | '+' :: ds => (digitsToNat ds).map (fun n => (n : Int))
  | ds => (digitsToNat ds).map (fun n => (n : Int))

/-- `int(candidate)` where `candidate` came from `request.json.get(...)`:
absent (`None`) and non-numeric values raise (`none`); `int` of a bool or an
integral JSON number succeeds. -/
def pyInt : Option Value → Option Int
  | none => none
  | some Value.null => none
  | some (Value.boolean b) => some (if b then 1 else 0)
  | some (Value.num n) => some n
  | some (Value.str s) => pyStrToInt s
  | some (Value.arr _) => none
  | some (Value.obj _) => none

/-! ## subscribe.py -/

/-- A dispatch invocation's single combined argument
`(request, context, event)`. -/
abbrev Combined := Request × Option Context × Option ActivityEvent

/-- The type of a wrapped activity-event handler:
called as `handler(request, context, event)`, returning a JSON-renderable
result or `None`. -/
abbrev Handler := Request → Option Context → Option ActivityEvent → Option Value

/-- `ParamAwareSubscriber`: wraps a handler with a request-param name and the
value it must equal. -/
structure ParamAwareSubscriber where
  param : PyStr
  value : PyStr
  handler : Handler

/-- Python `param_value == self.value` where `self.value` is a unicode
string and `param_value` is an optional decoded JSON value: true exactly when
`param_value` is an equal string (`None` and values of any other type compare
unequal to a string). -/
def valueEqStr (param_value : Option Value) (s : PyStr) : Bool :=
  match param_value with
  | some (Value.str t) => t = s
  | _ => false

/-- `ParamAwareSubscriber.__call__(combined_args)`: unpack
`request = combined_args[0]`, read `request.json.get(self.param, None)`; if
it differs from `self.value` return `None`, else call
`self.handler(request, *args)`. -/
def ParamAwareSubscriber.call (s : ParamAwareSubscriber) (combined_args : Combined) :
    Option Value :=
  let request := combined_args.1
  let param_value := jsonGet request.json s.param
  if ¬ valueEqStr param_value s.value then none
  else s.handler combined_args.1 combined_args.2.1 combined_args.2.2

/-- The JSON body returned by a dispatch: `{'handlers': [...]}`. -/
structure DispatchResult where
  handlers : List Value

/-- `StateChangeHandler.__call__`: invoke every matched subscription with the
single combined tuple `(request, context, event)` where
`context = request.context` and `event = request.activity_event`, collect the
results, and return `{'handlers': [item for item in results if item is not
None]}`.  The zope registry lookup over `providedBy(context)` is the external
collaborator that produced `subscriptions`. -/
def StateChangeHandler.call (subscriptions : List (Combined → Option Value))
    (request : Request) (activity_event : Option ActivityEvent) : DispatchResult :=
  let context := request.context
  let results := subscriptions.map (fun handler => handler (request, context, activity_event))
  ⟨results.filterMap id⟩

/-- `AddEngineSubscriber.__call__(config, context, namespaced_events, handler)`:
a bare (Python 2) string has no `__iter__`, so it is wrapped into a singleton
tuple; for each event name the param name is `value.split(':')[0]` and a
`ParamAwareSubscriber(param_name, value, handler)` is registered against the
`context` marker via `config.add_subscriber`.  The returned list models the
sequence of `add_subscriber` registrations. -/
def AddEngineSubscriber.call (marker : String) (namespaced_events : PyStr ⊕ List PyStr)
    (handler : Handler) : List (String × ParamAwareSubscriber) :=
  let events := match namespaced_events with
    | Sum.inl s => [s]
    | Sum.inr l => l
  events.map (fun value =>
    (marker, ⟨(pySplit ':' value).headD [], value, handler⟩))

/-- Modelled from the spec: `repo.LookupActivityEvent` (the `repo` module is
not under src/); per §4.3, `lookupEvent(id)` returns the event row with that
identifier or nil for an unknown identifier. -/
def lookupEvent (events : List ActivityEvent) (i : Int) : Option ActivityEvent :=
  events.find? (fun e => (e.id : Int) = i)

/-- The fallback arm of `GetActivityEvent.__call__`: if `request.context` is
truthy and has a truthy `work_status`, return `status.event` (the FK-resolved
causing event, itself possibly `None`); otherwise fall off the end
(`None`). -/
def GetActivityEvent.fallback (events : List ActivityEvent) (request : Request) :
    Option ActivityEvent :=
  match request.context with
  | some ctx =>
    match ctx.work_status with
    | some status => status.event_id.bind (fun i => lookupEvent events (i : Int))
    | none => none
  | none => none

/-- `GetActivityEvent.__call__(request)`: try `int(request.json.get('event_id',
None))`; on success look the id up, returning the row if found; on a
`TypeError`/`ValueError` or a failed lookup, fall back on the context's work
status. -/
def GetActivityEvent.call (events : List ActivityEvent) (request : Request) :
    Option ActivityEvent :=
  match pyInt (jsonGet request.json (pystr "event_id")) with
  | some event_id =>
    match lookupEvent events event_id with
    | some event => some event
    | none => GetActivityEvent.fallback events request
  | none => GetActivityEvent.fallback events request

/-! ## The `WorkStatusMixin` operations over an explicit store

The SQLAlchemy session/tables are embedded as a `Db` state: the
`work_statuses` table in insertion order, plus allocators for primary keys,
association-row ids, and the `utcnow` clock (each flush advances it, so rows
appended later carry strictly later timestamps). -/

structure Db where
  work_statuses : List WorkStatusRow
  next_status_id : Nat
  next_assoc_id : Nat
  now : Nat
deriving DecidableEq, Repr

/-- A parent entity carrying the mixin: its `work_status_association_id` FK
(nullable until the first status is appended) and `modified` timestamp. -/
structure Parent where
  work_status_association_id : Option Nat
  modified : Nat
deriving DecidableEq, Repr

/-- The parent's `work_statuses` association-proxy collection: the rows of
its association, in insertion order; `None`-ish (empty) while the parent has
no association row. -/
def Parent.collection (db : Db) (p : Parent) : List WorkStatusRow :=
  match p.work_status_association_id with
  | some a => db.work_statuses.filter (fun r => r.association_id = some a)
  | none => []

/-- `set_work_status(self, value, event)`: build a new `WorkStatus` row; if
`self.work_statuses` is truthy append to it, else assign `[status]`, which
makes the association proxy create a fresh association row via its creator;
set `self.modified = datetime.utcnow()`; add and flush (assigning the row
its id and `created`).  Returns the new state, parent, and row. -/
def set_work_status (db : Db) (p : Parent) (value : PyStr) (event_id : Option Nat) :
    Db × Parent × WorkStatusRow :=
  if (Parent.collection db p).isEmpty then
    let assoc_id := db.next_assoc_id
    let status : WorkStatusRow :=
      ⟨db.next_status_id, db.now, value, event_id, some assoc_id⟩
    (⟨db.work_statuses ++ [status], db.next_status_id + 1, db.next_assoc_id + 1,
        db.now + 1⟩,
      ⟨some assoc_id, db.now⟩, status)
  else
    let status : WorkStatusRow :=
      ⟨db.next_status_id, db.now, value, event_id, p.work_status_association_id⟩
    (⟨db.work_statuses ++ [status], db.next_status_id + 1, db.next_assoc_id,
        db.now + 1⟩,
      ⟨p.work_status_association_id, db.now⟩, status)

/-- `query.order_by(model_cls.created.desc()); query.first()` over an
in-memory table: the first row, in table order, whose `created` is maximal —
i.e. the head of a stable descending sort on `created`.  The ORM query
specifies no secondary ordering, so rows tied on `created` keep their table
(insertion) order. -/
def maxByCreated : List WorkStatusRow → Option WorkStatusRow
  | [] => none
  | r :: rs =>
    match maxByCreated rs with
    | none => some r
    | some m => if m.created > r.created then some m else some r

/-- The rows `get_work_status`'s query ranges over:
`filter_by(association_id=self.work_status_association_id)` plus the
optional `filter_by(value=value)`. -/
def matchingStatuses (db : Db) (p : Parent) (value : Option PyStr) :
    List WorkStatusRow :=
  let base := db.work_statuses.filter
    (fun r => r.association_id = p.work_status_association_id)
  match value with
  | some v => base.filter (fun r => r.value = v)
  | none => base

/-- `get_work_status(self, value=None)`: read-only query; most recent
matching row by `created`, or `None`. -/
def get_work_status (db : Db) (p : Parent) (value : Option PyStr) :
    Option WorkStatusRow :=
  maxByCreated (matchingStatuses db p value)

/-! ## The association registry (`declared_attr`s of `WorkStatusMixin`) -/

/-- A dynamically generated association subtype:
`type(class_name, bases, {'__mapper_args__': {'polymorphic_identity':
cls.singular_class_slug}})`. -/
structure AssociationSubtype where
  class_name : String
  polymorphic_identity : String
deriving DecidableEq, Repr

/-- The pair of association subtypes a parent type acquires from the mixin. -/
structure AssociationFamily where
  event_assoc : AssociationSubtype
  status_assoc : AssociationSubtype
deriving DecidableEq, Repr

/-- The family the two `declared_attr` bodies construct for a class named
`clsName` with canonical singular slug `slug`:
`'{0}ActivityEventAssociation'.format(cls.__name__)` discriminated by the
slug, and likewise `'{0}WorkStatusAssociation'`. -/
def mkAssociationFamily (clsName slug : String) : AssociationFamily :=
  ⟨⟨clsName ++ "ActivityEventAssociation", slug⟩,
    ⟨clsName ++ "WorkStatusAssociation", slug⟩⟩

/-- The registry of association families keyed by parent class name. -/
structure AssociationRegistry where
  families : List (String × AssociationFamily)
deriving DecidableEq, Repr

/-- Modelled from the spec: the once-per-class evaluation of `declared_attr`
performed by the declarative machinery (an external collaborator; §4.1's
`registerCapability`).  The family construction itself follows the
`activity_event_association` / `work_status_association` bodies in orm.py. -/
def registerCapability (reg : AssociationRegistry) (clsName slug : String) :
    AssociationFamily × AssociationRegistry :=
  match reg.families.lookup clsName with
  | some fam => (fam, reg)
  | none =>
    let fam := mkAssociationFamily clsName slug
    (fam, ⟨reg.families ++ [(clsName, fam)]⟩)

/-! ## orm.py's `includeme` settings handling -/

/-- `DEFAULTS`, parameterised by the `ENGINE_USER_CLASS` environment
variable: the default user class is stored under the key
`'engine.user_class'`. -/
def DEFAULTS (engine_user_class_env : Option String) : List (String × String) :=
  [("engine.user_class", engine_user_class_env.getD "pyramid_simpleauth.model.User")]

/-- `settings.setdefault(key, value)`: insert only when the key is absent. -/
def setdefault (settings : List (String × String)) (kv : String × String) :
    List (String × String) :=
  if (settings.lookup kv.1).isSome then settings else settings ++ [kv]

/-- The settings portion of orm.py's `includeme(config)`: apply `DEFAULTS`
via `setdefault`, then read `settings['torque_engine.user_class']` — a plain
indexing that raises `KeyError` when the key is absent.  Returns the settings
after defaulting together with the looked-up user class, or the error. -/
def includeme_user_class (env : Option String) (settings : List (String × String)) :
    Except String (List (String × String) × String) :=
  let settings := (DEFAULTS env).foldl setdefault settings
  match settings.lookup "torque_engine.user_class" with
  | some v => Except.ok (settings, v)
  | none => Except.error "KeyError"

/-! ## Helper lemmas -/

theorem valueEqStr_iff (pv : Option Value) (s : PyStr) :
    valueEqStr pv s = true ↔ pv = some (Value.str s) := by
  cases pv with
  | none => simp [valueEqStr]
  | some v => cases v <;> simp [valueEqStr]

theorem filterMap_id_map_some {α : Type} (l : List (Option α)) :
    (l.filterMap id).map some = l.filter (fun r => r.isSome) := by
  induction l with
  | nil => rfl
  | cons x xs ih =>
    cases x <;> simp [List.filterMap_cons, List.filter_cons, ih]

/-! ## C6 and C7: the `type_` compound field -/

/-- C6: for all non-empty `target` and `action` tokens containing no colon,
reading the event's compound type after it has been set from those tokens
round-trips: setting `type_` to the joined value restores exactly the same
`(target, action)` pair, i.e. `e.type_set e.type_get = some e`. -/
theorem type_roundtrip (e : ActivityEvent) (htne : e.target ≠ []) (hane : e.action ≠ [])
    (hct : ':' ∉ e.target) (hca : ':' ∉ e.action) :
    e.type_set e.type_get = some e := by
  cases e with
  | mk i t a =>
    simp only [ActivityEvent.type_set, ActivityEvent.type_get, typeSetParse] at *
    rw [pySplit_append ':' t a hct hca]
    rfl

/-- Witness for C6 at `target = "job"`, `action = "confirmed"`. -/
theorem type_roundtrip_witness :
    (ActivityEvent.mk 1 (pystr "job") (pystr "confirmed")).type_set
        (ActivityEvent.mk 1 (pystr "job") (pystr "confirmed")).type_get
      = some (ActivityEvent.mk 1 (pystr "job") (pystr "confirmed")) :=
  type_roundtrip _ (by decide) (by decide) (by decide) (by decide)

/-- C7 counterexample: setting `type_` to `"a:b:c"` does not split on the
first colon — `value.split(u':')` yields three parts and the two-name tuple
unpacking raises `ValueError` — so the setter neither sets
`target = "a", action = "b:c"` nor succeeds at all. -/
theorem type_set_multi_colon_counterexample :
    (ActivityEvent.mk 1 (pystr "x") (pystr "y")).type_set (pystr "a:b:c") = none
    ∧ (ActivityEvent.mk 1 (pystr "x") (pystr "y")).type_set (pystr "a:b:c")
        ≠ some (ActivityEvent.mk 1 (pystr "a") (pystr "b:c")) := by
  constructor
  · decide
  · decide

/-- Python's split produces one more part than there are separator
occurrences. -/
theorem pySplit_length (sep : Char) (s : PyStr) :
    (pySplit sep s).length = s.count sep + 1 := by
  induction s with
  | nil => rfl
  | cons c rest ih =>
    simp only [pySplit]
    by_cases hc : c = sep
    · rw [if_pos hc]
      have hbe : (c == sep) = true := beq_iff_eq.mpr hc
      simp [List.count_cons, hbe, ih]
    · rw [if_neg hc]
      have hbe : (c == sep) = false := beq_eq_false_iff_ne.mpr hc
      cases hsp : pySplit sep rest with
      | nil => exact absurd hsp (pySplit_ne_nil sep rest)
      | cons g gs =>
        rw [hsp] at ih
        simp only [List.length_cons] at ih
        simp [List.count_cons, hbe]
        omega

/-- The two-name unpacking of `value.split(u':')` raises `ValueError` unless
the split produced exactly two parts. -/
theorem typeSetParse_eq_none (v : PyStr) (h : (pySplit ':' v).length ≠ 2) :
    typeSetParse v = none := by
  unfold typeSetParse
  cases hsp : pySplit ':' v with
  | nil => rfl
  | cons x xs =>
    cases xs with
    | nil => rfl
    | cons y ys =>
      cases ys with
      | nil =>
        exfalso
        apply h
        rw [hsp]
        rfl
      | cons z zs => rfl

/-- C7 (amended): the setter splits the value on `:` and overwrites both
tokens only when the value holds exactly one colon — then `target` becomes
the part before it and `action` the part after; for every other value (no
colon, or further colons in the remainder) the two-name unpacking raises
`ValueError` and nothing is assigned. -/
theorem type_set_spec (e : ActivityEvent) (v : PyStr) :
    (∀ t a, v = t ++ ':' :: a → ':' ∉ t → ':' ∉ a →
        e.type_set v = some { e with target := t, action := a })
    ∧ (v.count ':' ≠ 1 → e.type_set v = none) := by
  constructor
  · intro t a hv hct hca
    subst hv
    simp only [ActivityEvent.type_set, typeSetParse]
    rw [pySplit_append ':' t a hct hca]
    rfl
  · intro hcnt
    unfold ActivityEvent.type_set
    rw [typeSetParse_eq_none v (by rw [pySplit_length]; omega)]
    rfl

/-- Witness for the amended C7: success at `"state" ++ ':' ++ "DECLINED"`,
`ValueError` at the colon-free `"abc"` and at the two-colon `"a:b:c"`. -/
theorem type_set_spec_witness :
    (ActivityEvent.mk 4 (pystr "x") (pystr "y")).type_set
        (pystr "state" ++ ':' :: pystr "DECLINED")
      = some (ActivityEvent.mk 4 (pystr "state") (pystr "DECLINED"))
    ∧ (ActivityEvent.mk 4 (pystr "x") (pystr "y")).type_set (pystr "abc") = none
    ∧ (ActivityEvent.mk 4 (pystr "x") (pystr "y")).type_set (pystr "a:b:c")
      = none := by
  refine ⟨?_, ?_, ?_⟩
  · exact (type_set_spec (ActivityEvent.mk 4 (pystr "x") (pystr "y")) _).1
      (pystr "state") (pystr "DECLINED") rfl (by decide) (by decide)
  · exact (type_set_spec (ActivityEvent.mk 4 (pystr "x") (pystr "y")) _).2 (by decide)
  · exact (type_set_spec (ActivityEvent.mk 4 (pystr "x") (pystr "y")) _).2 (by decide)

/-! ## C2: param-filtered subscriptions -/

/-- C2: a param-filtered subscription built from `(paramName, expectedValue,
handler)`, invoked with the combined tuple `(request, context, event)`,
returns `None` without calling the handler (for every handler alike) when the
request's JSON body field named `paramName` is absent or not the string
`expectedValue`; otherwise it returns exactly
`handler(request, context, event)`. -/
theorem param_aware_subscriber_spec (p v : PyStr) (h : Handler) (req : Request)
    (ctx : Option Context) (ev : Option ActivityEvent) :
    (jsonGet req.json p ≠ some (Value.str v) →
      ParamAwareSubscriber.call ⟨p, v, h⟩ (req, ctx, ev) = none)
    ∧ (jsonGet req.json p = some (Value.str v) →
      ParamAwareSubscriber.call ⟨p, v, h⟩ (req, ctx, ev) = h req ctx ev) := by
  constructor
  · intro hne
    have hfalse : valueEqStr (jsonGet req.json p) v = false := by
      cases hb : valueEqStr (jsonGet req.json p) v
      · rfl
      · exact absurd ((valueEqStr_iff _ _).mp hb) hne
    simp [ParamAwareSubscriber.call, hfalse]
  · intro heq
    have htrue : valueEqStr (jsonGet req.json p) v = true := (valueEqStr_iff _ _).mpr heq
    simp [ParamAwareSubscriber.call, htrue]

/-- Witness for C2: a subscription on `"state:DECLINED"` declines a body
carrying `state = "state:ACTIVE"` and fires on `state = "state:DECLINED"`,
returning its handler's result. -/
theorem param_aware_subscriber_witness :
    ParamAwareSubscriber.call
        ⟨pystr "state", pystr "state:DECLINED", fun _ _ _ => some (Value.num 1)⟩
        (⟨[(pystr "state", Value.str (pystr "state:ACTIVE"))], none⟩, none, none) = none
    ∧ ParamAwareSubscriber.call
        ⟨pystr "state", pystr "state:DECLINED", fun _ _ _ => some (Value.num 1)⟩
        (⟨[(pystr "state", Value.str (pystr "state:DECLINED"))], none⟩, none, none)
        = some (Value.num 1) := by
  constructor
  · refine (param_aware_subscriber_spec _ _ _ _ _ _).1 ?_
    intro hc
    have h0 : jsonGet [(pystr "state", Value.str (pystr "state:ACTIVE"))] (pystr "state")
        = some (Value.str (pystr "state:ACTIVE")) := rfl
    rw [h0] at hc
    injection hc with h1
    injection h1 with h2
    exact absurd h2 (by decide)
  · exact (param_aware_subscriber_spec _ _ _ _ _ _).2 rfl

/-! ## C4: the registration helper -/

/-- C4: for every marker, handler, and `namespacedEvents` argument (a single
event-name string or a sequence of them), the subscribe helper registers
exactly one subscription per event name — a param-filtered subscription
bound to `(paramName, fullName, handler)` whose `paramName` is the substring
of the full event name before its first `:`. -/
theorem add_engine_subscriber_spec (marker : String) (events : PyStr ⊕ List PyStr)
    (handler : Handler) :
    AddEngineSubscriber.call marker events handler
      = (match events with
          | Sum.inl s => [s]
          | Sum.inr l => l).map
          (fun (v : PyStr) =>
            (marker, ⟨v.takeWhile (fun c => ¬ c = ':'), v, handler⟩)) := by
  cases events with
  | inl s =>
    simp only [AddEngineSubscriber.call, List.map]
    rw [pySplit_head]
  | inr l =>
    simp only [AddEngineSubscriber.call]
    induction l with
    | nil => rfl
    | cons v vs ih =>
      simp only [List.map] at *
      rw [pySplit_head, ih]

/-! ## C3: dispatch aggregation -/

/-- C3 counterexample: `StateChangeHandler` discards only `None` results
(`if item is not None`), so an empty-but-not-`None` handler result — an empty
JSON mapping — is kept in `handlers`, where the claim says empty results are
discarded. -/
theorem dispatch_keeps_empty_counterexample :
    StateChangeHandler.call [fun _ => some (Value.obj [])] ⟨[], none⟩ none
      = ⟨[Value.obj []]⟩
    ∧ (⟨[Value.obj []]⟩ : DispatchResult) ≠ ⟨[]⟩ := by
  constructor
  · rfl
  · intro h
    injection h with h'
    exact List.noConfusion h'

/-- C3 (amended): every matching subscription is invoked with the single
combined argument tuple `(request, context, event)` (not three separate
arguments), and the returned mapping's `handlers` list holds, in invocation
order, exactly the subscription results that are not `None` — empty non-nil
results are kept. -/
theorem dispatch_aggregation (subs : List (Combined → Option Value))
    (request : Request) (activity_event : Option ActivityEvent) :
    (StateChangeHandler.call subs request activity_event).handlers.map some
      = (subs.map (fun h => h (request, request.context, activity_event))).filter
          (fun r => r.isSome) := by
  unfold StateChangeHandler.call
  exact filterMap_id_map_some
    (subs.map (fun h => h (request, request.context, activity_event)))

/-! ## C5: activity-event resolution -/

/-- C5: `GetActivityEvent` resolves in order: (1) a parseable `event_id`
that `lookupEvent` finds wins; (2) otherwise — `event_id` missing,
non-numeric, or unknown, none of which is an error — it returns the causing
event of the context's current status row when the context has one; (3)
otherwise `None`, as a normal outcome. -/
theorem get_activity_event_spec (events : List ActivityEvent) (request : Request) :
    (∀ i e, pyInt (jsonGet request.json (pystr "event_id")) = some i →
        lookupEvent events i = some e →
        GetActivityEvent.call events request = some e)
    ∧ ((pyInt (jsonGet request.json (pystr "event_id"))).bind (lookupEvent events)
          = none →
        ∀ ctx status, request.context = some ctx → ctx.work_status = some status →
          GetActivityEvent.call events request
            = status.event_id.bind (fun i => lookupEvent events (i : Int)))
    ∧ ((pyInt (jsonGet request.json (pystr "event_id"))).bind (lookupEvent events)
          = none →
        (request.context = none
            ∨ ∃ ctx, request.context = some ctx ∧ ctx.work_status = none) →
          GetActivityEvent.call events request = none) := by
  have hfall_some : ∀ ctx status, request.context = some ctx →
      ctx.work_status = some status →
      GetActivityEvent.fallback events request
        = status.event_id.bind (fun i => lookupEvent events (i : Int)) := by
    intro ctx status hctx hstat
    unfold GetActivityEvent.fallback
    simp only [hctx, hstat]
  have hfall_none :
      (request.context = none
          ∨ ∃ ctx, request.context = some ctx ∧ ctx.work_status = none) →
      GetActivityEvent.fallback events request = none := by
    intro h
    unfold GetActivityEvent.fallback
    rcases h with h | ⟨ctx, hc, hw⟩
    · simp only [h]
    · simp only [hc, hw]
  refine ⟨?_, ?_, ?_⟩
  · intro i e hi he
    unfold GetActivityEvent.call
    simp only [hi, he]
  · intro hn ctx status hctx hstat
    unfold GetActivityEvent.call
    cases hpi : pyInt (jsonGet request.json (pystr "event_id")) with
    | none => exact hfall_some ctx status hctx hstat
    | some i =>
      rw [hpi] at hn
      have hn' : lookupEvent events i = none := hn
      simp only [hn']
      exact hfall_some ctx status hctx hstat
  · intro hn hctx
    unfold GetActivityEvent.call
    cases hpi : pyInt (jsonGet request.json (pystr "event_id")) with
    | none => exact hfall_none hctx
    | some i =>
      rw [hpi] at hn
      have hn' : lookupEvent events i = none := hn
      simp only [hn']
      exact hfall_none hctx

/-- Witness for C5: with no `event_id` in the body and a context whose
current status references event 7, resolution returns that event; with a
non-numeric `event_id` and no context, it returns `None`. -/
theorem get_activity_event_witness :
    GetActivityEvent.call [ActivityEvent.mk 7 (pystr "job") (pystr "confirmed")]
        ⟨[], some ⟨some ⟨3, 5, pystr "state:CONFIRMED", some 7, some 1⟩⟩⟩
      = some (ActivityEvent.mk 7 (pystr "job") (pystr "confirmed"))
    ∧ GetActivityEvent.call [ActivityEvent.mk 7 (pystr "job") (pystr "confirmed")]
        ⟨[(pystr "event_id", Value.str (pystr "nope"))], none⟩ = none := by
  constructor
  · have h := (get_activity_event_spec
        [ActivityEvent.mk 7 (pystr "job") (pystr "confirmed")]
        ⟨[], some ⟨some ⟨3, 5, pystr "state:CONFIRMED", some 7, some 1⟩⟩⟩).2.1
        rfl ⟨some ⟨3, 5, pystr "state:CONFIRMED", some 7, some 1⟩⟩
        ⟨3, 5, pystr "state:CONFIRMED", some 7, some 1⟩ rfl rfl
    exact h.trans rfl
  · exact (get_activity_event_spec
        [ActivityEvent.mk 7 (pystr "job") (pystr "confirmed")]
        ⟨[(pystr "event_id", Value.str (pystr "nope"))], none⟩).2.2 rfl (Or.inl rfl)

/-! ## C1: current-status retrieval -/

theorem maxByCreated_eq_none_iff (l : List WorkStatusRow) :
    maxByCreated l = none ↔ l = [] := by
  cases l with
  | nil => simp [maxByCreated]
  | cons r rs =>
    simp only [maxByCreated]
    constructor
    · intro h
      cases hm : maxByCreated rs with
      | none => simp only [hm] at h; cases h
      | some m =>
        simp only [hm] at h
        by_cases hc : m.created > r.created
        · rw [if_pos hc] at h; cases h
        · rw [if_neg hc] at h; cases h
    · intro h; cases h

theorem maxByCreated_le (l : List WorkStatusRow) (r : WorkStatusRow)
    (h : maxByCreated l = some r) : r ∈ l ∧ ∀ x ∈ l, x.created ≤ r.created := by
  induction l generalizing r with
  | nil => cases h
  | cons y ys ih =>
    simp only [maxByCreated] at h
    cases hm : maxByCreated ys with
    | none =>
      simp only [hm] at h
      injection h with h
      subst h
      have hys : ys = [] := (maxByCreated_eq_none_iff ys).mp hm
      subst hys
      exact ⟨List.mem_singleton.mpr rfl, by intro x hx; simp at hx; simp [hx]⟩
    | some m =>
      simp only [hm] at h
      have hmem := ih m hm
      by_cases hc : m.created > y.created
      · rw [if_pos hc] at h
        injection h with h
        subst h
        refine ⟨List.mem_cons_of_mem y hmem.1, ?_⟩
        intro x hx
        rcases List.mem_cons.mp hx with hx | hx
        · subst hx; exact Nat.le_of_lt hc
        · exact hmem.2 x hx
      · rw [if_neg hc] at h
        injection h with h
        subst h
        refine ⟨List.mem_cons_self y ys, ?_⟩
        intro x hx
        rcases List.mem_cons.mp hx with hx | hx
        · subst hx; exact Nat.le_refl _
        · exact Nat.le_trans (hmem.2 x hx) (Nat.le_of_not_lt hc)

theorem maxByCreated_leftmost (l : List WorkStatusRow) (r : WorkStatusRow)
    (h : maxByCreated l = some r) :
    ∃ l₁ l₂, l = l₁ ++ r :: l₂ ∧ ∀ x ∈ l₁, x.created < r.created := by
  induction l generalizing r with
  | nil => cases h
  | cons y ys ih =>
    simp only [maxByCreated] at h
    cases hm : maxByCreated ys with
    | none =>
      simp only [hm] at h
      injection h with h
      subst h
      exact ⟨[], ys, rfl, by intro x hx; cases hx⟩
    | some m =>
      simp only [hm] at h
      by_cases hc : m.created > y.created
      · rw [if_pos hc] at h
        injection h with h
        subst h
        obtain ⟨l₁, l₂, heq, hlt⟩ := ih m hm
        refine ⟨y :: l₁, l₂, by rw [heq, List.cons_append], ?_⟩
        intro x hx
        rcases List.mem_cons.mp hx with hx | hx
        · subst hx; exact hc
        · exact hlt x hx
      · rw [if_neg hc] at h
        injection h with h
        subst h
        exact ⟨[], ys, rfl, by intro x hx; cases hx⟩

/-- C1 counterexample: two matching rows tied on `created` (ids 1 and 2).
The query orders only by `created desc` and, under the embedding's stable
table order, returns the id-1 row — not the id-2 row that the claim's
"ties broken by the highest id" requires. -/
theorem get_work_status_tie_counterexample :
    get_work_status
        (Db.mk [WorkStatusRow.mk 1 10 (pystr "state:CREATED") none (some 1),
                WorkStatusRow.mk 2 10 (pystr "state:CREATED") none (some 1)] 3 2 11)
        (Parent.mk (some 1) 0) none
      = some (WorkStatusRow.mk 1 10 (pystr "state:CREATED") none (some 1))
    ∧ get_work_status
        (Db.mk [WorkStatusRow.mk 1 10 (pystr "state:CREATED") none (some 1),
                WorkStatusRow.mk 2 10 (pystr "state:CREATED") none (some 1)] 3 2 11)
        (Parent.mk (some 1) 0) none
      ≠ some (WorkStatusRow.mk 2 10 (pystr "state:CREATED") none (some 1))
    ∧ WorkStatusRow.mk 2 10 (pystr "state:CREATED") none (some 1)
        ∈ matchingStatuses
            (Db.mk [WorkStatusRow.mk 1 10 (pystr "state:CREATED") none (some 1),
                    WorkStatusRow.mk 2 10 (pystr "state:CREATED") none (some 1)] 3 2 11)
            (Parent.mk (some 1) 0) none := by
  refine ⟨by decide, by decide, by decide⟩

/-- C1 (amended): `get_work_status` is a pure read (a function of the store,
returning no changed store); it returns `None` exactly when no row matches
the parent's status association and the optional value filter, and otherwise
returns a matching row of maximal `created` — on ties of `created` the first
matching row in table (insertion) order, the code ordering only by
`created desc` with no id tie-break. -/
theorem get_work_status_spec (db : Db) (p : Parent) (value : Option PyStr) :
    (get_work_status db p value = none ↔ matchingStatuses db p value = [])
    ∧ (∀ r, get_work_status db p value = some r →
        r ∈ matchingStatuses db p value
        ∧ (∀ x ∈ matchingStatuses db p value, x.created ≤ r.created)
        ∧ ∃ l₁ l₂, matchingStatuses db p value = l₁ ++ r :: l₂
            ∧ ∀ x ∈ l₁, x.created < r.created) := by
  constructor
  · exact maxByCreated_eq_none_iff (matchingStatuses db p value)
  · intro r hr
    have h1 := maxByCreated_le (matchingStatuses db p value) r hr
    have h2 := maxByCreated_leftmost (matchingStatuses db p value) r hr
    exact ⟨h1.1, h1.2, h2⟩

/-- Witness for the amended C1, on the spec's filtered-retrieval example:
rows valued CREATED, ACTIVE, CREATED appended in that order; the query
filtered by CREATED returns the third row, which is a maximal-`created`
matching row preceded only by strictly older rows. -/
theorem get_work_status_spec_witness :
    get_work_status
        (Db.mk [WorkStatusRow.mk 1 1 (pystr "state:CREATED") none (some 1),
                WorkStatusRow.mk 2 2 (pystr "state:ACTIVE") none (some 1),
                WorkStatusRow.mk 3 3 (pystr "state:CREATED") none (some 1)] 4 2 4)
        (Parent.mk (some 1) 3) (some (pystr "state:CREATED"))
      = some (WorkStatusRow.mk 3 3 (pystr "state:CREATED") none (some 1))
    ∧ (WorkStatusRow.mk 3 3 (pystr "state:CREATED") none (some 1)
        ∈ matchingStatuses
            (Db.mk [WorkStatusRow.mk 1 1 (pystr "state:CREATED") none (some 1),
                    WorkStatusRow.mk 2 2 (pystr "state:ACTIVE") none (some 1),
                    WorkStatusRow.mk 3 3 (pystr "state:CREATED") none (some 1)] 4 2 4)
            (Parent.mk (some 1) 3) (some (pystr "state:CREATED"))
        ∧ (∀ x ∈ matchingStatuses
            (Db.mk [WorkStatusRow.mk 1 1 (pystr "state:CREATED") none (some 1),
                    WorkStatusRow.mk 2 2 (pystr "state:ACTIVE") none (some 1),
                    WorkStatusRow.mk 3 3 (pystr "state:CREATED") none (some 1)] 4 2 4)
            (Parent.mk (some 1) 3) (some (pystr "state:CREATED")),
            x.created ≤ 3)
        ∧ ∃ l₁ l₂, matchingStatuses
            (Db.mk [WorkStatusRow.mk 1 1 (pystr "state:CREATED") none (some 1),
                    WorkStatusRow.mk 2 2 (pystr "state:ACTIVE") none (some 1),
                    WorkStatusRow.mk 3 3 (pystr "state:CREATED") none (some 1)] 4 2 4)
            (Parent.mk (some 1) 3) (some (pystr "state:CREATED"))
              = l₁ ++ WorkStatusRow.mk 3 3 (pystr "state:CREATED") none (some 1) :: l₂
            ∧ ∀ x ∈ l₁, x.created < 3) :=
  ⟨by decide,
    (get_work_status_spec
      (Db.mk [WorkStatusRow.mk 1 1 (pystr "state:CREATED") none (some 1),
              WorkStatusRow.mk 2 2 (pystr "state:ACTIVE") none (some 1),
              WorkStatusRow.mk 3 3 (pystr "state:CREATED") none (some 1)] 4 2 4)
      (Parent.mk (some 1) 3) (some (pystr "state:CREATED"))).2
      (WorkStatusRow.mk 3 3 (pystr "state:CREATED") none (some 1)) (by decide)⟩

/-! ## C9: idempotent capability registration -/

theorem lookup_append_self {β : Type} (l : List (String × β)) (k : String) (v : β)
    (h : l.lookup k = none) : (l ++ [(k, v)]).lookup k = some v := by
  induction l with
  | nil => simp [List.lookup]
  | cons kv t ih =>
    cases kv with
    | mk k' v' =>
      simp only [List.cons_append, List.lookup] at h ⊢
      by_cases hq : k = k'
      · have hbe : (k == k') = true := by rw [hq]; exact beq_self_eq_true k'
        simp only [hbe] at h
        exact Option.noConfusion h
      · have hbe : (k == k') = false := beq_eq_false_iff_ne.mpr hq
        simp only [hbe] at h ⊢
        exact ih h

theorem lookup_append_single_ne {β : Type} (l : List (String × β)) (k k2 : String)
    (v : β) (hne : (k == k2) = false) :
    (l ++ [(k2, v)]).lookup k = l.lookup k := by
  induction l with
  | nil => simp [List.lookup, hne]
  | cons kv t ih =>
    cases kv with
    | mk k' v' =>
      simp only [List.cons_append, List.lookup]
      by_cases hq : k = k'
      · have hbe : (k == k') = true := by rw [hq]; exact beq_self_eq_true k'
        simp only [hbe]
      · have hbe : (k == k') = false := beq_eq_false_iff_ne.mpr hq
        simp only [hbe]
        exact ih

/-- `setdefault` does not change lookups of other keys. -/
theorem lookup_setdefault_other (settings : List (String × String))
    (kv : String × String) (k : String) (hne : (k == kv.1) = false) :
    (setdefault settings kv).lookup k = settings.lookup k := by
  unfold setdefault
  split
  · rfl
  · exact lookup_append_single_ne settings k kv.1 kv.2 hne

/-- After `setdefault`, its own key is present. -/
theorem lookup_setdefault_self (settings : List (String × String))
    (kv : String × String) :
    ((setdefault settings kv).lookup kv.1).isSome = true := by
  unfold setdefault
  split
  · next hcond => exact hcond
  · next hcond =>
    cases hx : settings.lookup kv.1 with
    | none =>
      rw [lookup_append_self settings kv.1 kv.2 hx]
      rfl
    | some v => exact absurd (by rw [hx]; rfl) hcond

/-- C9: for a non-empty, stable parent type identifier, registration is
idempotent: a second registration of the same parent type returns exactly the
family of the first and leaves the registry unchanged (no duplicate family);
and a fresh registration yields the family whose two association subtypes are
both discriminated by the parent type's canonical singular name. -/
theorem register_capability_idempotent (reg : AssociationRegistry)
    (clsName slug : String) (hne : clsName ≠ "") :
    registerCapability (registerCapability reg clsName slug).2 clsName slug
        = registerCapability reg clsName slug
    ∧ (reg.families.lookup clsName = none →
        (registerCapability reg clsName slug).1 = mkAssociationFamily clsName slug
        ∧ (registerCapability reg clsName slug).1.event_assoc.polymorphic_identity
            = slug
        ∧ (registerCapability reg clsName slug).1.status_assoc.polymorphic_identity
            = slug) := by
  constructor
  · cases hl : reg.families.lookup clsName with
    | some fam => simp [registerCapability, hl]
    | none =>
      have h2 : ((reg.families ++ [(clsName, mkAssociationFamily clsName slug)]).lookup
          clsName) = some (mkAssociationFamily clsName slug) :=
        lookup_append_self reg.families clsName _ hl
      simp [registerCapability, hl, h2]
  · intro hl
    simp [registerCapability, hl, mkAssociationFamily]

/-- Witness for C9: registering `Job` twice in an empty registry. -/
theorem register_capability_witness :
    registerCapability (registerCapability ⟨[]⟩ "Job" "job").2 "Job" "job"
        = registerCapability ⟨[]⟩ "Job" "job"
    ∧ (registerCapability ⟨[]⟩ "Job" "job").1 = mkAssociationFamily "Job" "job" := by
  have h := register_capability_idempotent ⟨[]⟩ "Job" "job" (by decide)
  exact ⟨h.1, (h.2 rfl).1⟩

/-! ## C10: the `includeme` settings-key mismatch -/

/-- C10: for every settings mapping without an explicit
`'torque_engine.user_class'` key, orm.py's `includeme` raises a key-lookup
error before patching the actor relation: the default it installed went in
under `'engine.user_class'`, a key the subsequent
`settings['torque_engine.user_class']` lookup never consults — so the
default/environment-variable path can never succeed. -/
theorem includeme_missing_key (env : Option String)
    (settings : List (String × String))
    (h : settings.lookup "torque_engine.user_class" = none) :
    includeme_user_class env settings = Except.error "KeyError"
    ∧ (((DEFAULTS env).foldl setdefault settings).lookup "engine.user_class").isSome
        = true := by
  have hfold : (DEFAULTS env).foldl setdefault settings
      = setdefault settings ("engine.user_class",
          env.getD "pyramid_simpleauth.model.User") := rfl
  have hl : (setdefault settings ("engine.user_class",
        env.getD "pyramid_simpleauth.model.User")).lookup "torque_engine.user_class"
      = none := by
    rw [lookup_setdefault_other settings
      ("engine.user_class", env.getD "pyramid_simpleauth.model.User")
      "torque_engine.user_class"
      (show ("torque_engine.user_class" == "engine.user_class") = false by decide)]
    exact h
  constructor
  · unfold includeme_user_class
    rw [hfold]
    simp only [hl]
  · rw [hfold]
    exact lookup_setdefault_self settings
      ("engine.user_class", env.getD "pyramid_simpleauth.model.User")

/-- Witness for C10: empty settings, no environment override. -/
theorem includeme_missing_key_witness :
    includeme_user_class none [] = Except.error "KeyError"
    ∧ (((DEFAULTS none).foldl setdefault []).lookup "engine.user_class").isSome
        = true :=
  includeme_missing_key none [] rfl

/-! ## C8: monotonic, strictly additive status history -/

/-- Store sanity: every persisted row predates the clock and was allocated
below the id and association-id counters. -/
def Inv (db : Db) : Prop :=
  ∀ r ∈ db.work_statuses,
    r.created < db.now ∧ r.id < db.next_status_id ∧
    ∀ a, r.association_id = some a → a < db.next_assoc_id

/-- A parent in a sane store: the store satisfies `Inv`, the parent's proxy
collection is `owned`, and its association id (if any) was allocated. -/
def GoodState (db : Db) (p : Parent) (owned : List WorkStatusRow) : Prop :=
  Inv db ∧ Parent.collection db p = owned ∧
  (∀ a, p.work_status_association_id = some a → a < db.next_assoc_id)

/-- `n` sequential `set_work_status` calls on the same parent, threading the
store and parent through and collecting the returned rows in call order. -/
def appendAll (db : Db) (p : Parent) :
    List (PyStr × Option Nat) → Db × Parent × List WorkStatusRow
  | [] => (db, p, [])
  | (v, e) :: rest =>
    let step := set_work_status db p v e
    let next := appendAll step.1 step.2.1 rest
    (next.1, next.2.1, step.2.2 :: next.2.2)

theorem GoodState.owned_bounds (db : Db) (p : Parent) (owned : List WorkStatusRow)
    (h : GoodState db p owned) :
    ∀ r ∈ owned, r.created < db.now ∧ r.id < db.next_status_id := by
  obtain ⟨hInv, hcoll, _⟩ := h
  intro r hr
  rw [← hcoll] at hr
  unfold Parent.collection at hr
  cases hpa : p.work_status_association_id with
  | none => simp only [hpa] at hr; cases hr
  | some a =>
    simp only [hpa] at hr
    have hmem := (List.mem_filter.mp hr).1
    exact ⟨(hInv r hmem).1, (hInv r hmem).2.1⟩

theorem set_work_status_step (db : Db) (p : Parent) (owned : List WorkStatusRow)
    (v : PyStr) (e : Option Nat) (h : GoodState db p owned) :
    GoodState (set_work_status db p v e).1 (set_work_status db p v e).2.1
        (owned ++ [(set_work_status db p v e).2.2])
    ∧ (set_work_status db p v e).2.2.created = db.now
    ∧ (set_work_status db p v e).2.2.id = db.next_status_id
    ∧ (set_work_status db p v e).1.work_statuses
        = db.work_statuses ++ [(set_work_status db p v e).2.2]
    ∧ (set_work_status db p v e).1.now = db.now + 1
    ∧ (set_work_status db p v e).1.next_status_id = db.next_status_id + 1
    ∧ ((set_work_status db p v e).2.1.work_status_association_id).isSome = true := by
  obtain ⟨hInv, hcoll, hassoc⟩ := h
  unfold set_work_status
  by_cases hE : (Parent.collection db p).isEmpty
  · rw [if_pos hE]
    have howned : owned = [] := by
      rw [← hcoll]
      exact List.isEmpty_iff.mp hE
    refine ⟨⟨?_, ?_, ?_⟩, rfl, rfl, rfl, rfl, rfl, rfl⟩
    · intro r hr
      rcases List.mem_append.mp hr with hr | hr
      · obtain ⟨h1, h2, h3⟩ := hInv r hr
        exact ⟨Nat.lt_succ_of_lt h1, Nat.lt_succ_of_lt h2,
          fun a ha => Nat.lt_succ_of_lt (h3 a ha)⟩
      · rw [List.mem_singleton.mp hr]
        exact ⟨Nat.lt_succ_self _, Nat.lt_succ_self _,
          fun a ha => by injection ha with ha; rw [← ha]; exact Nat.lt_succ_self _⟩
    · rw [howned, List.nil_append]
      unfold Parent.collection
      simp only [List.filter_append]
      have h1 : db.work_statuses.filter
          (fun r => r.association_id = some db.next_assoc_id) = [] := by
        rw [List.filter_eq_nil_iff]
        intro r hr hx
        have := (hInv r hr).2.2 db.next_assoc_id (of_decide_eq_true hx)
        exact Nat.lt_irrefl _ this
      rw [h1, List.nil_append]
      simp
    · intro a ha
      injection ha with ha
      rw [← ha]
      exact Nat.lt_succ_self _
  · rw [if_neg hE]
    have hne : Parent.collection db p ≠ [] := by
      intro hx
      exact hE (List.isEmpty_iff.mpr hx)
    cases hpa : p.work_status_association_id with
    | none =>
      exfalso
      apply hne
      unfold Parent.collection
      simp only [hpa]
    | some a =>
      refine ⟨⟨?_, ?_, ?_⟩, rfl, rfl, rfl, rfl, rfl, ?_⟩
      · intro r hr
        rcases List.mem_append.mp hr with hr | hr
        · obtain ⟨h1, h2, h3⟩ := hInv r hr
          exact ⟨Nat.lt_succ_of_lt h1, Nat.lt_succ_of_lt h2, h3⟩
        · rw [List.mem_singleton.mp hr]
          refine ⟨Nat.lt_succ_self _, Nat.lt_succ_self _, ?_⟩
          intro a' ha'
          simp only [hpa] at ha'
          injection ha' with ha'
          rw [← ha']
          exact hassoc a hpa
      · rw [← hcoll]
        unfold Parent.collection
        simp only [hpa, List.filter_append]
        have h2 : [(⟨db.next_status_id, db.now, v, e, some a⟩ : WorkStatusRow)].filter
            (fun r => r.association_id = some a) =
            [⟨db.next_status_id, db.now, v, e, some a⟩] := by
          rw [List.filter_cons]
          simp
        rw [h2]
      · intro a' ha'
        simp only [hpa] at ha'
        injection ha' with ha'
        rw [← ha']
        exact hassoc a hpa
      · rfl

theorem maxByCreated_getLast (l : List WorkStatusRow)
    (hp : List.Pairwise (fun x y => x.created < y.created) l) (r : WorkStatusRow)
    (h : l.getLast? = some r) : maxByCreated l = some r := by
  induction l with
  | nil => cases h
  | cons y ys ih =>
    cases ys with
    | nil =>
      injection h with h
      rw [← h]
      rfl
    | cons z zs =>
      have h' : (z :: zs).getLast? = some r := by
        rw [← List.getLast?_cons_cons]
        exact h
      have hm := ih ((List.pairwise_cons.mp hp).2) h'
      have hy : y.created < r.created :=
        (List.pairwise_cons.mp hp).1 r (List.mem_of_mem_getLast? h')
      have hstep : maxByCreated (y :: z :: zs)
          = match maxByCreated (z :: zs) with
            | none => some y
            | some m => if m.created > y.created then some m else some y := rfl
      rw [hstep, hm]
      show (if r.created > y.created then some r else some y) = some r
      rw [if_pos hy]

theorem appendAll_spec (vs : List (PyStr × Option Nat)) :
    ∀ (db : Db) (p : Parent) (owned : List WorkStatusRow),
    GoodState db p owned →
    List.Pairwise (fun x y => x.id < y.id ∧ x.created < y.created) owned →
    GoodState (appendAll db p vs).1 (appendAll db p vs).2.1
        (owned ++ (appendAll db p vs).2.2)
    ∧ (appendAll db p vs).1.work_statuses
        = db.work_statuses ++ (appendAll db p vs).2.2
    ∧ List.Pairwise (fun x y => x.id < y.id ∧ x.created < y.created)
        (owned ++ (appendAll db p vs).2.2)
    ∧ (appendAll db p vs).2.2.length = vs.length
    ∧ (vs ≠ [] →
        ((appendAll db p vs).2.1.work_status_association_id).isSome = true) := by
  induction vs with
  | nil =>
    intro db p owned hgs hpw
    have hnil : appendAll db p ([] : List (PyStr × Option Nat)) = (db, p, []) := rfl
    rw [hnil]
    exact ⟨by simpa using hgs, by simp, by simpa using hpw, rfl,
      fun hx => absurd rfl hx⟩
  | cons ve rest ih =>
    intro db p owned hgs hpw
    obtain ⟨v, e⟩ := ve
    obtain ⟨hgs', hcr, hid, hws, hnow, hnsid, hsome⟩ :=
      set_work_status_step db p owned v e hgs
    have hbounds := GoodState.owned_bounds db p owned hgs
    have hpw' : List.Pairwise (fun x y => x.id < y.id ∧ x.created < y.created)
        (owned ++ [(set_work_status db p v e).2.2]) := by
      rw [List.pairwise_append]
      refine ⟨hpw, List.pairwise_singleton _ _, ?_⟩
      intro x hx b hb
      rw [List.mem_singleton.mp hb, hid, hcr]
      exact ⟨(hbounds x hx).2, (hbounds x hx).1⟩
    have hrec := ih (set_work_status db p v e).1 (set_work_status db p v e).2.1
      (owned ++ [(set_work_status db p v e).2.2]) hgs' hpw'
    obtain ⟨rgs, rws, rpw, rlen, rsome⟩ := hrec
    have happ : appendAll db p ((v, e) :: rest)
        = ((appendAll (set_work_status db p v e).1
              (set_work_status db p v e).2.1 rest).1,
           (appendAll (set_work_status db p v e).1
              (set_work_status db p v e).2.1 rest).2.1,
           (set_work_status db p v e).2.2
             :: (appendAll (set_work_status db p v e).1
                  (set_work_status db p v e).2.1 rest).2.2) := rfl
    rw [happ]
    have hassocl : owned ++ (set_work_status db p v e).2.2
          :: (appendAll (set_work_status db p v e).1
              (set_work_status db p v e).2.1 rest).2.2
        = (owned ++ [(set_work_status db p v e).2.2])
          ++ (appendAll (set_work_status db p v e).1
              (set_work_status db p v e).2.1 rest).2.2 := by
      rw [List.append_assoc, List.singleton_append]
    refine ⟨?_, ?_, ?_, ?_, ?_⟩
    · rw [hassocl]; exact rgs
    · rw [rws, hws, List.append_assoc, List.singleton_append]
    · rw [hassocl]; exact rpw
    · simp only [List.length_cons, rlen, List.length_cons]
    · intro _
      cases rest with
      | nil => exact hsome
      | cons w ws => exact rsome (List.cons_ne_nil w ws)

/-- C8: starting from a sane store and a parent with no status history yet,
after `n` sequential `set_work_status` calls the parent's status collection
is exactly the `n` appended rows in call order (so it has exactly `n`
entries with pairwise distinct identifiers), the table grew by exactly those
rows (no earlier row updated or deleted — history is strictly additive), and
`get_work_status` returns the row created by the most recent call. -/
theorem set_work_status_history (db : Db) (p : Parent)
    (vs : List (PyStr × Option Nat)) (hInv : Inv db)
    (hp : p.work_status_association_id = none) :
    Parent.collection (appendAll db p vs).1 (appendAll db p vs).2.1
        = (appendAll db p vs).2.2
    ∧ (appendAll db p vs).1.work_statuses
        = db.work_statuses ++ (appendAll db p vs).2.2
    ∧ (appendAll db p vs).2.2.length = vs.length
    ∧ ((appendAll db p vs).2.2.map (fun r => r.id)).Nodup
    ∧ (∀ r, (appendAll db p vs).2.2.getLast? = some r →
        get_work_status (appendAll db p vs).1 (appendAll db p vs).2.1 none
          = some r) := by
  have hgs : GoodState db p [] := by
    refine ⟨hInv, ?_, ?_⟩
    · unfold Parent.collection
      simp only [hp]
    · intro a ha
      rw [hp] at ha
      exact Option.noConfusion ha
  obtain ⟨rgs, rws, rpw, rlen, rsome⟩ := appendAll_spec vs db p [] hgs List.Pairwise.nil
  have hcoll : Parent.collection (appendAll db p vs).1 (appendAll db p vs).2.1
      = (appendAll db p vs).2.2 := by
    have := rgs.2.1
    rwa [List.nil_append] at this
  have rpw' : List.Pairwise (fun x y => x.id < y.id ∧ x.created < y.created)
      (appendAll db p vs).2.2 := by
    rwa [List.nil_append] at rpw
  refine ⟨hcoll, rws, rlen, ?_, ?_⟩
  · have : ((appendAll db p vs).2.2.map (fun r => r.id)).Pairwise (· ≠ ·) :=
      List.pairwise_map.mpr (rpw'.imp (fun hab => Nat.ne_of_lt hab.1))
    exact this
  · intro r hlast
    have hvs : vs ≠ [] := by
      intro hv
      subst hv
      exact Option.noConfusion hlast
    obtain ⟨a, hpa⟩ : ∃ a,
        (appendAll db p vs).2.1.work_status_association_id = some a :=
      Option.isSome_iff_exists.mp (rsome hvs)
    have hmatch : matchingStatuses (appendAll db p vs).1 (appendAll db p vs).2.1 none
        = Parent.collection (appendAll db p vs).1 (appendAll db p vs).2.1 := by
      unfold matchingStatuses Parent.collection
      simp only [hpa]
    unfold get_work_status
    rw [hmatch, hcoll]
    exact maxByCreated_getLast (appendAll db p vs).2.2
      (rpw'.imp (fun hab => hab.2)) r hlast

/-- Witness for C8: two appends on a fresh parent over an empty store; the
collection has the two appended rows and the current status is the second
one. -/
theorem set_work_status_history_witness :
    Inv (Db.mk [] 0 0 0)
    ∧ get_work_status
        (appendAll (Db.mk [] 0 0 0) (Parent.mk none 0)
          [(pystr "state:CREATED", none), (pystr "state:ACTIVE", none)]).1
        (appendAll (Db.mk [] 0 0 0) (Parent.mk none 0)
          [(pystr "state:CREATED", none), (pystr "state:ACTIVE", none)]).2.1 none
        = some (WorkStatusRow.mk 1 1 (pystr "state:ACTIVE") none (some 0))
    ∧ (appendAll (Db.mk [] 0 0 0) (Parent.mk none 0)
        [(pystr "state:CREATED", none), (pystr "state:ACTIVE", none)]).2.2.length
        = 2 := by
  have hInv : Inv (Db.mk [] 0 0 0) := by
    intro r hr
    cases hr
  have h := set_work_status_history (Db.mk [] 0 0 0) (Parent.mk none 0)
    [(pystr "state:CREATED", none), (pystr "state:ACTIVE", none)] hInv rfl
  exact ⟨hInv,
    h.2.2.2.2 (WorkStatusRow.mk 1 1 (pystr "state:ACTIVE") none (some 0)) (by decide),
    h.2.2.1⟩

end TorqueEngine
